import Mathlib

/-!
Verification of the free-text slot editing engine of a structured
search-query builder (source: `static/app/components/searchQueryBuilder/tokens/freeText.tsx`).

The pure helpers of that module (`getWordAtCursorPosition`,
`getInitialFilterKeyText`, `getInitialFilterText`, `replaceFocusedWordWithFilter`,
`countPreviousItemsOfType`, `calculateNextFocusForFilter`,
`calculateNextFocusForParen`, `getKeyLabel`, `createItem`, `createSection`,
`useSortItems`) and the event handlers (`onInputChange`, `onPaste`,
`onExit`, `onCustomValueBlurred`, `onCustomValueCommitted`) are embedded
below.  JavaScript string operations (`split(' ')`, `slice`, `trim`,
`replace('\n', '')`, `includes`, `indexOf`) are given explicit executable
models; external collaborators (the query parser, the field-definition
catalog, the default-value lookup, the fuzzy-match engine, key escaping)
are parameters of the embedded functions.
-/

namespace FreeTextSlot

/-! ## JavaScript string primitives -/

/-- Model of JavaScript `value.split(' ')`: split a character list at every
single space character.  `[]` input yields `[[]]`, matching `"".split(' ') = [""]`. -/
def splitOnSpace : List Char → List (List Char)
  | [] => [[]]
  | c :: cs =>
    if c = ' ' then [] :: splitOnSpace cs
    else (c :: (splitOnSpace cs).headD []) :: (splitOnSpace cs).tail

/-- JavaScript `value.split(' ')` on strings. -/
def jsSplit (s : String) : List String :=
  (splitOnSpace s.data).map String.mk

/-- Drop leading and trailing whitespace from a character list. -/
def trimChars (l : List Char) : List Char :=
  ((l.dropWhile Char.isWhitespace).reverse.dropWhile Char.isWhitespace).reverse

/-- JavaScript `s.trim()`. -/
def jsTrim (s : String) : String :=
  String.mk (trimChars s.data)

/-- JavaScript `s.slice(0, n)` (for `n ≥ 0`). -/
def jsSliceTo (s : String) (n : Nat) : String :=
  String.mk (s.data.take n)

/-- JavaScript `s.slice(n)` (for `n ≥ 0`). -/
def jsSliceFrom (s : String) (n : Nat) : String :=
  String.mk (s.data.drop n)

/-- JavaScript `s.replace(c, '')` with a single-character pattern: removes only
the FIRST occurrence of `c`. -/
def removeFirstChar (c : Char) : List Char → List Char
  | [] => []
  | x :: xs => if x = c then xs else x :: removeFirstChar c xs

/-- JavaScript `s.includes(pat)`: substring containment. -/
def strIncludes (s pat : String) : Bool :=
  decide (pat.data <:+: s.data)

/-- JavaScript `Array.prototype.indexOf`: index of the first occurrence,
`-1` when absent. -/
def jsIndexOf (l : List String) (x : String) : Int :=
  match List.findIdx? (fun k => k == x) l with
  | some i => (i : Int)
  | none => -1

/-- JavaScript `Array.prototype.slice(0, e)` with a possibly negative end index. -/
def jsSliceUpTo {α : Type} (l : List α) (e : Int) : List α :=
  l.take (if e < 0 then ((l.length : Int) + e).toNat else e.toNat)

/-! ## External collaborator data model

The query-language parser, the field-definition catalog and the
default-value lookup live outside this module.  Their shapes are modelled
from the spec's data model (ParseOutcome spans tagged with a token kind;
`lookupFieldDefinition(key) -> {kind, valueType, parameters?, desc?} | null`;
`defaultValueFor(key, fieldDefinition) -> literal string`). -/

/-- Modelled from the spec: the token kinds of the external parser's
classified spans that this module inspects (`Token` enum of the external
`searchSyntax/parser`); string values follow the `kind:index` item keys the
module builds from them. -/
inductive Token where
  | spaces
  | filter
  | freeText
  | logicBoolean
  | lParen
  | rParen
deriving DecidableEq

/-- The string value of a `Token` enum member. -/
def tokenStr : Token → String
  | .spaces => "spaces"
  | .filter => "filter"
  | .freeText => "freeText"
  | .logicBoolean => "logicBoolean"
  | .lParen => "lParen"
  | .rParen => "rParen"

/-- Modelled from the spec: the `kind` part of an external field definition
(`FieldKind` enum); only `FUNCTION` is discriminated by this module. -/
inductive FieldKind where
  | function
  | field
  | tag
deriving DecidableEq

/-- Modelled from the spec: the `valueType` of an external field definition
(`FieldValueType` enum). -/
inductive FieldValueType where
  | string
  | number
  | integer
  | duration
  | percentage
  | boolean
  | date
  | size
deriving DecidableEq

/-- Modelled from the spec: one parameter of a function-kind field
definition (`{name, defaultValue?}`). -/
structure AggregateParameter where
  name : String
  defaultValue : Option String
deriving DecidableEq

/-- Modelled from the spec: an external field definition
(`{kind, valueType, parameters?, desc?}`); a catalog miss is `Option.none`
at use sites. -/
structure FieldDefinition where
  kind : Option FieldKind
  valueType : FieldValueType
  desc : Option String
  parameters : Option (List AggregateParameter)
deriving DecidableEq

/-- The external `getFieldDefinition` catalog lookup. -/
abbrev FieldDefinitionGetter := String → Option FieldDefinition

/-- The external `getDefaultFilterValue({key, fieldDefinition})` lookup. -/
abbrev DefaultValueLookup := String → Option FieldDefinition → String

/-! ## Word Locator (`getWordAtCursorPosition`) and shared scan loop

Both `getWordAtCursorPosition` and `replaceFocusedWordWithFilter` contain
the identical accumulation loop over `value.split(' ')`; `wordScanAux` is
that shared loop, returning the updated `characterCount` and the matched
word of the first iteration whose `characterCount >= cursorPosition`, or
`none` when the loop falls through. -/

def wordScanAux (cursorPosition : Nat) : List String → Nat → Option (Nat × String)
  | [], _ => none
  | w :: ws, characterCount =>
    if cursorPosition ≤ characterCount + w.length + 1 then
      some (characterCount + w.length + 1, w)
    else
      wordScanAux cursorPosition ws (characterCount + w.length + 1)

def wordScan (value : String) (cursorPosition : Nat) : Option (Nat × String) :=
  wordScanAux cursorPosition (jsSplit value) 0

/-- `getWordAtCursorPosition(value, cursorPosition)`: the word of the scan
loop's first match, or the whole `value` when the loop falls through. -/
def getWordAtCursorPosition (value : String) (cursorPosition : Nat) : String :=
  match wordScan value cursorPosition with
  | some (_, word) => word
  | none => value

/-! ## Default Value Synthesizer (`getInitialFilterKeyText`, `getInitialFilterText`) -/

/-- `getInitialFilterKeyText(key, fieldDefinition)`. -/
def getInitialFilterKeyText (key : String) (fieldDefinition : Option FieldDefinition) : String :=
  match fieldDefinition with
  | some f =>
    if f.kind = some .function then
      match f.parameters with
      | some ps => key ++ "(" ++ String.intercalate "," (ps.filterMap (·.defaultValue)) ++ ")"
      | none => key ++ "()"
    else key
  | none => key

/-- `getInitialFilterText(key, fieldDefinition)`; the external
`getDefaultFilterValue` is passed in as `gdv`. -/
def getInitialFilterText (key : String) (fieldDefinition : Option FieldDefinition)
    (gdv : DefaultValueLookup) : String :=
  let defaultValue := gdv key fieldDefinition
  let keyText := getInitialFilterKeyText key fieldDefinition
  match fieldDefinition with
  | some f =>
    match f.valueType with
    | .integer | .number | .duration | .percentage => keyText ++ ":>" ++ defaultValue
    | _ => keyText ++ ":" ++ defaultValue
  | none => keyText ++ ":" ++ defaultValue

/-! ## Focused-Word Replacer (`replaceFocusedWordWithFilter`) -/

/-- `replaceFocusedWordWithFilter(value, cursorPosition, key, getFieldDefinition)`:
splice the synthesized filter text over the word under the cursor. -/
def replaceFocusedWordWithFilter (value : String) (cursorPosition : Nat) (key : String)
    (getFieldDefinition : FieldDefinitionGetter) (gdv : DefaultValueLookup) : String :=
  match wordScan value cursorPosition with
  | some (characterCount, word) =>
    jsTrim (jsTrim (jsSliceTo value (characterCount - word.length - 1)) ++ " " ++
      getInitialFilterText key (getFieldDefinition key) gdv ++ " " ++
      jsTrim (jsSliceFrom value characterCount))
  | none => value

/-! ## Focus Router (`countPreviousItemsOfType`, `calculateNextFocusForFilter`,
`calculateNextFocusForParen`)

The react-stately `ListState` is modelled by its collection's item keys (the
strings `` `${tokenType}:${index}` `` produced for the committed token
stream) and the currently focused key. -/

/-- A focus target: `{itemKey, part?}`. -/
structure FocusOverride where
  itemKey : String
  part : Option String
deriving DecidableEq

/-- The slice of the external `ListState` that the focus router reads. -/
structure ListStateModel where
  itemKeys : List String
  focusedKey : String

/-- The item key the collection assigns to a committed token: its kind's
enum string, a colon, and a decimal ordinal. -/
def pairKey (p : Token × Nat) : String :=
  tokenStr p.1 ++ ":" ++ Nat.repr p.2

/-- `countPreviousItemsOfType({state, type})`: count the item keys before the
focused key whose string contains the type's enum string. -/
def countPreviousItemsOfType (state : ListStateModel) (type : Token) : Nat :=
  let itemKeys := state.itemKeys
  let currentIndex := jsIndexOf itemKeys state.focusedKey
  (jsSliceUpTo itemKeys currentIndex).countP (fun next => strIncludes next (tokenStr type))

/-- `calculateNextFocusForFilter(state)`. -/
def calculateNextFocusForFilter (state : ListStateModel) : FocusOverride :=
  let numPreviousFilterItems := countPreviousItemsOfType state .filter
  { itemKey := tokenStr .filter ++ ":" ++ Nat.repr numPreviousFilterItems
    part := some "value" }

/-- `calculateNextFocusForParen(item)`: bump the decimal index of the current
item's key.  JavaScript `parseInt` of a non-numeric segment yields `NaN`,
which the template string renders as `"NaN"`; `parseInt`'s tolerance for
trailing garbage is not modelled (item keys are machine-generated). -/
def calculateNextFocusForParen (itemKey : String) : FocusOverride :=
  match ((itemKey.splitOn ":").getD 1 "").toNat? with
  | some tokenTypeIndex =>
    { itemKey := tokenStr .freeText ++ ":" ++ Nat.repr (tokenTypeIndex + 1), part := none }
  | none => { itemKey := tokenStr .freeText ++ ":NaN", part := none }

/-! ## Speculative Tokenizer (`onInputChange`) -/

/-- Modelled from the spec: one classified span of the external parser's
ParseOutcome; `keyText` is the filter key's text (`textToken.key.text`),
only inspected on FILTER-kind spans. -/
structure Span where
  type : Token
  keyText : String

/-- The external `parseSearch`: a classified-span sequence, or `none` on
parse failure. -/
abbrev ParseFn := String → Option (List Span)

/-- The observable outcome of one `onInputChange` call: a structural commit
(paren or filter, with the dispatched text and focus override), or a plain
local-state update. -/
inductive InputChangeResult where
  | formsParen (dispatchText : String) (focus : FocusOverride)
  | formsFilter (word : String) (dispatchText : String) (focus : FocusOverride)
  | freeText (newInputValue : String) (newSelectionIndex : Nat)
deriving DecidableEq

/-- `onInputChange` of `SearchQueryBuilderInputInternal`.  `inputValue` and
`selectionIndex` are the pre-keystroke local state (captured by the
handler's closure), `targetValue`/`targetSelectionStart` are
`e.target.value`/`e.target.selectionStart` of the event. -/
def onInputChange (parse : ParseFn) (getFieldDefinition : FieldDefinitionGetter)
    (gdv : DefaultValueLookup) (state : ListStateModel) (itemKey : String)
    (inputValue : String) (selectionIndex : Nat)
    (targetValue : String) (targetSelectionStart : Option Nat) : InputChangeResult :=
  let filterValue := getWordAtCursorPosition inputValue selectionIndex
  match parse (targetValue ++ "\"") with
  | some parsedText =>
    if parsedText.any (fun textToken =>
        textToken.type == Token.lParen || textToken.type == Token.rParen) then
      .formsParen targetValue (calculateNextFocusForParen itemKey)
    else if parsedText.any (fun textToken =>
        textToken.type == Token.filter && textToken.keyText == filterValue) then
      .formsFilter filterValue
        (replaceFocusedWordWithFilter inputValue selectionIndex filterValue
          getFieldDefinition gdv)
        (calculateNextFocusForFilter state)
    else
      .freeText targetValue (targetSelectionStart.getD 0)
  | none => .freeText targetValue (targetSelectionStart.getD 0)

/-! ## Commit-dispatching handlers (`onPaste`, `onExit`, `onCustomValueBlurred`,
`onCustomValueCommitted`)

Each handler is modelled by the list of dispatch calls it makes. -/

inductive DispatchType where
  | updateFreeText
  | replaceTokensWithText
deriving DecidableEq

structure DispatchCall where
  type : DispatchType
  text : String
  focusOverride : Option FocusOverride
deriving DecidableEq

/-- `onPaste`: dispatch `REPLACE_TOKENS_WITH_TEXT` with the clipboard text
after `replace('\n', '')` (first occurrence only) and `trim()`. -/
def onPaste (clipboardText : String) : DispatchCall :=
  { type := .replaceTokensWithText
    text := jsTrim (String.mk (removeFirstChar '\n' clipboardText.data))
    focusOverride := none }

/-- Modelled from the spec: the pasted payload with ALL newline characters
stripped, then trimmed (the spec's described paste commit text). -/
def pasteTextAllNewlinesStripped (clipboardText : String) : String :=
  jsTrim (String.mk (clipboardText.data.filter (fun c => c ≠ '\n')))

/-- `onExit`: dispatch `UPDATE_FREE_TEXT` with the raw local text only when
it differs from `token.value.trim()`. -/
def onExit (inputValue : String) (tokenValue : String) : List DispatchCall :=
  if inputValue ≠ jsTrim tokenValue then
    [{ type := .updateFreeText, text := inputValue, focusOverride := none }]
  else []

/-- `onCustomValueBlurred`: always dispatch `UPDATE_FREE_TEXT` with the raw
value. -/
def onCustomValueBlurred (value : String) : List DispatchCall :=
  [{ type := .updateFreeText, text := value, focusOverride := none }]

/-- `onCustomValueCommitted`: always dispatch `UPDATE_FREE_TEXT` with the raw
value (the subsequent `handleSearch` call goes to an external collaborator
and is not modelled). -/
def onCustomValueCommitted (value : String) : List DispatchCall :=
  [{ type := .updateFreeText, text := value, focusOverride := none }]

/-! ## Candidate Ranker (`getKeyLabel`, `createItem`, `createSection`,
`useSortItems`) -/

/-- A filter-key catalog entry (the slice of the external `Tag` this module
reads). -/
structure Tag where
  key : String
  kind : Option FieldKind
deriving DecidableEq

/-- A selectable key item (`KeyItem`); the `details` React node is dropped. -/
structure KeyItem where
  key : String
  label : String
  description : String
  value : String
  textValue : String
  hideCheck : Bool
  showDetailsInOverlay : Bool
deriving DecidableEq

/-- A section grouping (`KeySectionItem`); the React `title` node is modelled
as its string label. -/
structure KeySectionItem where
  key : String
  options : List KeyItem
  title : String
  value : String
deriving DecidableEq

/-- A configured key section (`FilterKeySection`). -/
structure FilterKeySection where
  value : String
  label : String
  children : List String
deriving DecidableEq

/-- A ranked entry: single key or section grouping (the spec's tagged
`Candidate` variant). -/
inductive SortItem where
  | single (item : KeyItem)
  | group (s : KeySectionItem)
deriving DecidableEq

/-- `getKeyLabel(tag, fieldDefinition, {includeAggregateArgs})`. -/
def getKeyLabel (tag : Tag) (fieldDefinition : Option FieldDefinition)
    (includeAggregateArgs : Bool) : String :=
  match fieldDefinition with
  | some f =>
    if f.kind = some .function then
      match f.parameters with
      | some ps =>
        if ps ≠ [] then
          if includeAggregateArgs then
            tag.key ++ "(" ++ String.intercalate ", " (ps.map (·.name)) ++ ")"
          else tag.key ++ "(...)"
        else tag.key ++ "()"
      | none => tag.key ++ "()"
    else tag.key
  | none => tag.key

/-- `createItem(tag, fieldDefinition)`; `gesc` is the external
`getEscapedKey`. -/
def createItem (gesc : String → String) (tag : Tag)
    (fieldDefinition : Option FieldDefinition) : KeyItem :=
  { key := gesc tag.key
    label := getKeyLabel tag fieldDefinition false
    description := (fieldDefinition.bind (·.desc)).getD ""
    value := tag.key
    textValue := tag.key
    hideCheck := true
    showDetailsInOverlay := true }

/-- `createSection(section, keys, getFieldDefinition)`; `lookupTag` is the
record indexing `keys[key]` of the filter-key collection. -/
def createSection (gesc : String → String) (lookupTag : String → Tag)
    (getFieldDefinition : FieldDefinitionGetter) (s : FilterKeySection) : KeySectionItem :=
  { key := s.value
    value := s.value
    title := s.label
    options := s.children.map (fun k => createItem gesc (lookupTag k) (getFieldDefinition k)) }

/-- The context read by `useSortItems`: the filter-key catalog
(`filterKeys`, both its `Object.values` order and its record indexing), the
configured sections, the catalog lookups, and the external fuzzy-search
engine (`none` models an unavailable `useFuzzySearch`). -/
structure SortEnv where
  filterKeys : List Tag
  filterKeySections : List FilterKeySection
  lookupTag : String → Tag
  getFieldDefinition : FieldDefinitionGetter
  getEscapedKey : String → String
  fuzzy : Option (String → List KeyItem)

/-- The `flatItems` memo of `useSortItems`. -/
def flatItems (env : SortEnv) : List KeyItem :=
  env.filterKeys.map (fun t => createItem env.getEscapedKey t (env.getFieldDefinition t.key))

/-- `useSortItems({filterValue})`. -/
def useSortItems (env : SortEnv) (filterValue : String) : List SortItem :=
  if filterValue = "" ∨ env.fuzzy.isNone = true then
    if env.filterKeySections = [] then
      (flatItems env).map .single
    else
      env.filterKeySections.map (fun s =>
        .group (createSection env.getEscapedKey env.lookupTag env.getFieldDefinition s))
  else
    match env.fuzzy with
    | some search => (search filterValue).map .single
    | none => []

/-! ## Word-scan lemmas -/

lemma splitOnSpace_ne_nil (l : List Char) : splitOnSpace l ≠ [] := by
  cases l with
  | nil => simp [splitOnSpace]
  | cons c cs =>
    simp only [splitOnSpace]
    split <;> simp

lemma splitOnSpace_sum (l : List Char) :
    ((splitOnSpace l).map (fun w => w.length + 1)).sum = l.length + 1 := by
  induction l with
  | nil => simp [splitOnSpace]
  | cons c cs ih =>
    by_cases hc : c = ' '
    · simp only [splitOnSpace, if_pos hc, List.map_cons, List.sum_cons, List.length_cons,
        List.length_nil]
      omega
    · obtain ⟨w, ws, hw⟩ := List.exists_cons_of_ne_nil (splitOnSpace_ne_nil cs)
      simp only [hw, List.map_cons, List.sum_cons] at ih
      simp only [splitOnSpace, if_neg hc, hw, List.headD_cons, List.tail_cons, List.map_cons,
        List.sum_cons, List.length_cons]
      omega

lemma splitOnSpace_shape (l : List Char) :
    (∃ t, (splitOnSpace l).headD [] ++ t = l) ∧
    ∀ w ∈ splitOnSpace l, (' ' ∉ w) ∧ w <:+: l := by
  induction l with
  | nil =>
    refine ⟨⟨[], rfl⟩, ?_⟩
    intro w hw
    simp only [splitOnSpace, List.mem_singleton] at hw
    subst hw
    exact ⟨by simp, ⟨[], [], rfl⟩⟩
  | cons c cs ih =>
    by_cases hc : c = ' '
    · subst hc
      simp only [splitOnSpace, if_pos rfl]
      refine ⟨⟨' ' :: cs, rfl⟩, ?_⟩
      intro w hw
      rcases List.mem_cons.mp hw with rfl | hw'
      · exact ⟨by simp, ⟨[], ' ' :: cs, by simp⟩⟩
      · obtain ⟨hsp, s, t, hst⟩ := ih.2 w hw'
        exact ⟨hsp, ⟨' ' :: s, t, by simp [hst]⟩⟩
    · obtain ⟨w₀, ws, hw⟩ := List.exists_cons_of_ne_nil (splitOnSpace_ne_nil cs)
      have hmem₀ : w₀ ∈ splitOnSpace cs := by
        rw [hw]; exact List.mem_cons_self _ _
      obtain ⟨⟨t₀, ht₀⟩, hmem⟩ := ih
      rw [hw] at ht₀
      simp only [List.headD_cons] at ht₀
      simp only [splitOnSpace, if_neg hc, hw, List.headD_cons, List.tail_cons]
      constructor
      · exact ⟨t₀, by simp [ht₀]⟩
      · intro w hwmem
        rcases List.mem_cons.mp hwmem with rfl | hw'
        · refine ⟨?_, ⟨[], t₀, by simp [ht₀]⟩⟩
          intro habs
          rcases List.mem_cons.mp habs with h1 | h2
          · exact hc h1.symm
          · exact (hmem w₀ hmem₀).1 h2
        · obtain ⟨hsp, s, t, hst⟩ := hmem w (by rw [hw]; exact List.mem_cons_of_mem _ hw')
          exact ⟨hsp, ⟨c :: s, t, by simp [hst]⟩⟩

lemma wordScanAux_mem (cursor : Nat) :
    ∀ (ws : List String) (cc cc' : Nat) (w : String),
      wordScanAux cursor ws cc = some (cc', w) → w ∈ ws := by
  intro ws
  induction ws with
  | nil => intro cc cc' w h; simp [wordScanAux] at h
  | cons x xs ih =>
    intro cc cc' w h
    simp only [wordScanAux] at h
    split at h
    · simp only [Option.some.injEq, Prod.mk.injEq] at h
      rw [← h.2]
      exact List.mem_cons_self _ _
    · exact List.mem_cons_of_mem _ (ih _ _ _ h)

lemma wordScanAux_none_iff (cursor : Nat) :
    ∀ (ws : List String) (cc : Nat), ws ≠ [] →
      (wordScanAux cursor ws cc = none ↔
        cc + ((ws.map (fun w => w.length + 1)).sum) < cursor) := by
  intro ws
  induction ws with
  | nil => intro cc h; exact absurd rfl h
  | cons x xs ih =>
    intro cc _
    simp only [wordScanAux, List.map_cons, List.sum_cons]
    split
    case isTrue h => simp; omega
    case isFalse h =>
      cases xs with
      | nil =>
        simp only [wordScanAux, List.map_nil, List.sum_nil]
        simp
        omega
      | cons y ys =>
        rw [ih _ (by simp)]
        simp only [List.map_cons, List.sum_cons]
        omega

lemma wordScan_none_iff (value : String) (cursor : Nat) :
    wordScan value cursor = none ↔ value.length + 2 ≤ cursor := by
  obtain ⟨data⟩ := value
  rw [wordScan, jsSplit, wordScanAux_none_iff _ _ _ (by simp [splitOnSpace_ne_nil])]
  rw [List.map_map]
  have hm : ((fun w : String => w.length + 1) ∘ String.mk) =
      fun p : List Char => p.length + 1 := by
    funext p; simp
  rw [hm, splitOnSpace_sum]
  simp only [String.length_mk]
  omega

/-! ## Claim theorems: word locator and loop totality -/

/-- Claim C10: for every text and cursor offset at most `text.length + 1`, the
shared word-scan loop matches some word (the per-word boundaries sum to
`text.length + 1`), so the fallbacks of `getWordAtCursorPosition` (return
the full text) and of `replaceFocusedWordWithFilter` (return the text
unchanged) run exactly when the cursor offset is at least `text.length + 2`. -/
theorem wordScan_total (value : String) (cursorPosition : Nat) :
    (wordScan value cursorPosition = none ↔ value.length + 2 ≤ cursorPosition) ∧
    (cursorPosition ≤ value.length + 1 →
      ∃ cc w, wordScan value cursorPosition = some (cc, w)) ∧
    (wordScan value cursorPosition = none →
      getWordAtCursorPosition value cursorPosition = value ∧
      ∀ key gfd gdv, replaceFocusedWordWithFilter value cursorPosition key gfd gdv = value) := by
  refine ⟨wordScan_none_iff value cursorPosition, ?_, ?_⟩
  · intro h
    cases hw : wordScan value cursorPosition with
    | some p =>
      obtain ⟨cc, w⟩ := p
      exact ⟨cc, w, rfl⟩
    | none => exact absurd ((wordScan_none_iff value cursorPosition).mp hw) (by omega)
  · intro h
    refine ⟨by simp [getWordAtCursorPosition, h], ?_⟩
    intro key gfd gdv
    simp [replaceFocusedWordWithFilter, h]

theorem wordScan_total_witness :
    (∃ cc w, wordScan "a b" 2 = some (cc, w)) ∧
    (getWordAtCursorPosition "a" 4 = "a" ∧
      ∀ key gfd gdv, replaceFocusedWordWithFilter "a" 4 key gfd gdv = "a") :=
  ⟨(wordScan_total "a b" 2).2.1 (by decide), (wordScan_total "a" 4).2.2 (by decide)⟩

/-- Claim C5: `getWordAtCursorPosition` is total; for a cursor offset within
`[0, text.length]` it returns a contiguous substring of the text containing
no space; it returns the word of the scan loop's first match and the full
text when the loop falls through; the empty text always yields the empty
string. -/
theorem getWordAtCursorPosition_spec (text : String) (cursorOffset : Nat) :
    (cursorOffset ≤ text.length →
      (getWordAtCursorPosition text cursorOffset).data <:+: text.data ∧
      ' ' ∉ (getWordAtCursorPosition text cursorOffset).data) ∧
    (∀ cc w, wordScan text cursorOffset = some (cc, w) →
      getWordAtCursorPosition text cursorOffset = w) ∧
    (wordScan text cursorOffset = none → getWordAtCursorPosition text cursorOffset = text) ∧
    getWordAtCursorPosition "" cursorOffset = "" := by
  refine ⟨?_, ?_, ?_, ?_⟩
  · intro h
    cases hw : wordScan text cursorOffset with
    | none => exact absurd ((wordScan_none_iff text cursorOffset).mp hw) (by omega)
    | some p =>
      obtain ⟨cc, w⟩ := p
      have hmem := wordScanAux_mem cursorOffset (jsSplit text) 0 cc w hw
      rw [jsSplit] at hmem
      obtain ⟨p, hp, hpw⟩ := List.mem_map.mp hmem
      have hshape := (splitOnSpace_shape text.data).2 p hp
      have hdata : (getWordAtCursorPosition text cursorOffset).data = p := by
        simp only [getWordAtCursorPosition, hw, ← hpw]
      rw [hdata]
      exact ⟨hshape.2, hshape.1⟩
  · intro cc w h
    simp [getWordAtCursorPosition, h]
  · intro h
    simp [getWordAtCursorPosition, h]
  · cases hw : wordScan "" cursorOffset with
    | none => simp [getWordAtCursorPosition, hw]
    | some p =>
      obtain ⟨cc, w⟩ := p
      have hmem := wordScanAux_mem cursorOffset (jsSplit "") 0 cc w hw
      have hsplit : jsSplit "" = [""] := by decide
      rw [hsplit, List.mem_singleton] at hmem
      simp [getWordAtCursorPosition, hw, hmem]

theorem getWordAtCursorPosition_spec_witness :
    ((getWordAtCursorPosition "a b" 1).data <:+: ("a b" : String).data ∧
      ' ' ∉ (getWordAtCursorPosition "a b" 1).data) ∧
    getWordAtCursorPosition "a b" 1 = "a" :=
  ⟨(getWordAtCursorPosition_spec "a b" 1).1 (by decide),
   (getWordAtCursorPosition_spec "a b" 1).2.1 2 "a" (by decide)⟩

/-! ## Claim theorems: focused-word replacement -/

/-- Claim C3: `replaceFocusedWordWithFilter` locates the word with the same
scan loop as the word locator; on a match it returns the trimmed text
before the word, a space, the synthesized filter text, a space, and the
trimmed text after the word, all trimmed; past all words it returns the
text unchanged; the canonical example holds for a string-kind lookup with
an empty default value. -/
theorem replaceFocusedWordWithFilter_spec (value : String) (cursorPosition : Nat)
    (key : String) (gfd : FieldDefinitionGetter) (gdv : DefaultValueLookup) :
    (∀ cc w, wordScan value cursorPosition = some (cc, w) →
      getWordAtCursorPosition value cursorPosition = w ∧
      replaceFocusedWordWithFilter value cursorPosition key gfd gdv =
        jsTrim (jsTrim (jsSliceTo value (cc - w.length - 1)) ++ " " ++
          getInitialFilterText key (gfd key) gdv ++ " " ++
          jsTrim (jsSliceFrom value cc))) ∧
    (wordScan value cursorPosition = none →
      replaceFocusedWordWithFilter value cursorPosition key gfd gdv = value) ∧
    replaceFocusedWordWithFilter "before brow after" 9 "browser.name"
      (fun _ => some { kind := none, valueType := .string, desc := none, parameters := none })
      (fun _ _ => "") = "before browser.name: after" := by
  refine ⟨?_, ?_, by decide⟩
  · intro cc w h
    exact ⟨by simp [getWordAtCursorPosition, h], by simp [replaceFocusedWordWithFilter, h]⟩
  · intro h
    simp [replaceFocusedWordWithFilter, h]

theorem replaceFocusedWordWithFilter_spec_witness :
    (getWordAtCursorPosition "ab" 0 = "ab" ∧
      replaceFocusedWordWithFilter "ab" 0 "k" (fun _ => none) (fun _ _ => "v") =
        jsTrim (jsTrim (jsSliceTo "ab" (3 - ("ab" : String).length - 1)) ++ " " ++
          getInitialFilterText "k" none (fun _ _ => "v") ++ " " ++
          jsTrim (jsSliceFrom "ab" 3))) ∧
    replaceFocusedWordWithFilter "x" 5 "k" (fun _ => none) (fun _ _ => "v") = "x" :=
  ⟨(replaceFocusedWordWithFilter_spec "ab" 0 "k" (fun _ => none) (fun _ _ => "v")).1
      3 "ab" (by decide),
   (replaceFocusedWordWithFilter_spec "x" 5 "k" (fun _ => none) (fun _ _ => "v")).2.1
      (by decide)⟩

/-! ## Claim theorems: speculative tokenizer -/

/-- Claim C1: `onInputChange` consults the external parser only on the
hypothetical text with one synthetic closing quote appended, and the
outcome follows the ordered case analysis: any paren-kind span commits a
paren; else any FILTER-kind span whose key text equals the word at the
cursor commits a filter for that word; else the keystroke is absorbed into
local state. -/
theorem onInputChange_classification (parse : ParseFn) (gfd : FieldDefinitionGetter)
    (gdv : DefaultValueLookup) (state : ListStateModel) (itemKey : String)
    (inputValue : String) (selectionIndex : Nat)
    (targetValue : String) (targetSelectionStart : Option Nat) :
    (∀ parse2 : ParseFn, parse2 (targetValue ++ "\"") = parse (targetValue ++ "\"") →
      onInputChange parse2 gfd gdv state itemKey inputValue selectionIndex targetValue
          targetSelectionStart =
        onInputChange parse gfd gdv state itemKey inputValue selectionIndex targetValue
          targetSelectionStart) ∧
    (∀ spans, parse (targetValue ++ "\"") = some spans →
      (spans.any (fun tk => tk.type == Token.lParen || tk.type == Token.rParen) = true →
        onInputChange parse gfd gdv state itemKey inputValue selectionIndex targetValue
            targetSelectionStart =
          .formsParen targetValue (calculateNextFocusForParen itemKey)) ∧
      (spans.any (fun tk => tk.type == Token.lParen || tk.type == Token.rParen) = false →
        spans.any (fun tk => tk.type == Token.filter &&
            tk.keyText == getWordAtCursorPosition inputValue selectionIndex) = true →
        onInputChange parse gfd gdv state itemKey inputValue selectionIndex targetValue
            targetSelectionStart =
          .formsFilter (getWordAtCursorPosition inputValue selectionIndex)
            (replaceFocusedWordWithFilter inputValue selectionIndex
              (getWordAtCursorPosition inputValue selectionIndex) gfd gdv)
            (calculateNextFocusForFilter state)) ∧
      (spans.any (fun tk => tk.type == Token.lParen || tk.type == Token.rParen) = false →
        spans.any (fun tk => tk.type == Token.filter &&
            tk.keyText == getWordAtCursorPosition inputValue selectionIndex) = false →
        onInputChange parse gfd gdv state itemKey inputValue selectionIndex targetValue
            targetSelectionStart =
          .freeText targetValue (targetSelectionStart.getD 0))) := by
  constructor
  · intro parse2 h
    unfold onInputChange
    rw [h]
  · intro spans hs
    refine ⟨?_, ?_, ?_⟩
    · intro hp
      simp [onInputChange, hs, hp]
    · intro hp hf
      simp [onInputChange, hs, hp, hf]
    · intro hp hf
      simp [onInputChange, hs, hp, hf]

theorem onInputChange_classification_witness :
    onInputChange (fun _ => some [⟨Token.lParen, ""⟩]) (fun _ => none) (fun _ _ => "")
        ⟨[], ""⟩ "freeText:0" "" 0 "(" none =
      .formsParen "(" (calculateNextFocusForParen "freeText:0") :=
  ((onInputChange_classification (fun _ => some [⟨Token.lParen, ""⟩]) (fun _ => none)
      (fun _ _ => "") ⟨[], ""⟩ "freeText:0" "" 0 "(" none).2
    [⟨Token.lParen, ""⟩] rfl).1 rfl

/-- Claim C7: when the external parser fails on the hypothetical text (with
the synthetic quote appended), `onInputChange` never dispatches a
structural commit: it classifies the keystroke as free text and stores the
raw input and cursor into local state. -/
theorem onInputChange_parse_failure (parse : ParseFn) (gfd : FieldDefinitionGetter)
    (gdv : DefaultValueLookup) (state : ListStateModel) (itemKey : String)
    (inputValue : String) (selectionIndex : Nat)
    (targetValue : String) (targetSelectionStart : Option Nat)
    (h : parse (targetValue ++ "\"") = none) :
    onInputChange parse gfd gdv state itemKey inputValue selectionIndex targetValue
        targetSelectionStart = .freeText targetValue (targetSelectionStart.getD 0) := by
  simp [onInputChange, h]

theorem onInputChange_parse_failure_witness :
    onInputChange (fun _ => none) (fun _ => none) (fun _ _ => "") ⟨[], ""⟩ "freeText:0"
        "ab" 1 "abc" (some 3) = .freeText "abc" 3 :=
  onInputChange_parse_failure _ _ _ _ _ _ _ _ _ rfl

/-! ## Item-key lemmas

`countPreviousItemsOfType` matches item keys with the substring test
`next.toString().includes(type)`; the lemmas below show that on keys of the
shape `` `${tokenType}:${index}` `` this test holds exactly for keys of the
queried token type, because the decimal index part contains no letters. -/

lemma digitChar_isDigit (n : Nat) (h : n < 10) : (Nat.digitChar n).isDigit = true := by
  interval_cases n <;> decide

lemma toDigitsCore_digits :
    ∀ (fuel n : Nat) (ds : List Char), (∀ c ∈ ds, c.isDigit = true) →
      ∀ c ∈ Nat.toDigitsCore 10 fuel n ds, c.isDigit = true := by
  intro fuel
  induction fuel with
  | zero =>
    intro n ds hds c hc
    simpa [Nat.toDigitsCore] using hds c hc
  | succ f ih =>
    intro n ds hds c hc
    have hd : (Nat.digitChar (n % 10)).isDigit = true :=
      digitChar_isDigit _ (Nat.mod_lt _ (by norm_num))
    simp only [Nat.toDigitsCore] at hc
    split at hc
    · rcases List.mem_cons.mp hc with rfl | hmem
      · exact hd
      · exact hds c hmem
    · refine ih (n / 10) _ ?_ c hc
      intro c' hc'
      rcases List.mem_cons.mp hc' with rfl | hmem
      · exact hd
      · exact hds c' hmem

lemma repr_digits (n : Nat) : ∀ c ∈ (Nat.repr n).data, c.isDigit = true := by
  intro c hc
  have h : (Nat.repr n).data = Nat.toDigitsCore 10 (n + 1) n [] := rfl
  rw [h] at hc
  exact toDigitsCore_digits (n + 1) n [] (by simp) c hc

lemma drop_last_not_mem {p l : List Char} {c : Char} (h : p <:+: l ++ [c]) (hc : c ∉ p) :
    p <:+: l := by
  obtain ⟨s, t, hst⟩ := h
  cases t using List.reverseRecOn with
  | nil =>
    rcases List.eq_nil_or_concat' p with rfl | ⟨p', a, rfl⟩
    · exact ⟨l, [], by simp⟩
    · have h2 : (s ++ p') ++ [a] = l ++ [c] := by
        simpa [List.append_assoc] using hst
      obtain ⟨-, h3⟩ := List.append_inj' h2 rfl
      have ha : a = c := by simpa using h3
      exact absurd (by simp [ha]) hc
  | append_singleton t' b _ =>
    have h2 : (s ++ p ++ t') ++ [b] = l ++ [c] := by
      simpa [List.append_assoc] using hst
    obtain ⟨h3, -⟩ := List.append_inj' h2 rfl
    exact ⟨s, t', h3⟩

lemma within_left_part :
    ∀ (l₂ : List Char) {p l₁ : List Char}, (∀ c ∈ l₂, c ∉ p) → p <:+: l₁ ++ l₂ →
      p <:+: l₁ := by
  intro l₂
  induction l₂ using List.reverseRecOn with
  | nil =>
    intro p l₁ _ h
    simpa using h
  | append_singleton t b ih =>
    intro p l₁ h₂ h
    refine ih (fun c hc => h₂ c (by simp [hc])) ?_
    exact drop_last_not_mem (by rwa [← List.append_assoc] at h) (h₂ b (by simp))

lemma pairKey_data (t : Token) (i : Nat) :
    (pairKey (t, i)).data = (tokenStr t).data ++ ':' :: (Nat.repr i).data := by
  simp [pairKey, String.data_append]

lemma strIncludes_key_not_filter {t : Token}
    (ht : ¬ ((tokenStr Token.filter).data <:+: (tokenStr t).data)) (i : Nat) :
    strIncludes (pairKey (t, i)) (tokenStr Token.filter) = false := by
  simp only [strIncludes, decide_eq_false_iff_not]
  intro habs
  rw [pairKey_data] at habs
  refine ht (within_left_part (':' :: (Nat.repr i).data) ?_ habs)
  intro c hc hcp
  rcases List.mem_cons.mp hc with rfl | hmem
  · exact absurd hcp (by decide)
  · have h1 := repr_digits i c hmem
    have h2 : ∀ d ∈ (tokenStr Token.filter).data, d.isDigit = false := by decide
    have h3 := h2 c hcp
    rw [h1] at h3
    exact absurd h3 (by simp)

lemma strIncludes_pairKey_filter (t : Token) (i : Nat) :
    strIncludes (pairKey (t, i)) (tokenStr Token.filter) = (t == Token.filter) := by
  by_cases hf : t = Token.filter
  · subst hf
    have hpos : (tokenStr Token.filter).data <:+: (pairKey (Token.filter, i)).data :=
      ⟨[], ':' :: (Nat.repr i).data, by rw [pairKey_data]; simp⟩
    simp [strIncludes, hpos]
  · have hb : (t == Token.filter) = false := by
      rw [beq_eq_false_iff_ne]; exact hf
    rw [hb]
    refine strIncludes_key_not_filter ?_ i
    cases t with
    | filter => exact absurd rfl hf
    | spaces => decide
    | freeText => decide
    | logicBoolean => decide
    | lParen => decide
    | rParen => decide

lemma findIdx_first (l₁ l₂ : List String) (x : String) (h : x ∉ l₁) :
    List.findIdx? (fun k => k == x) (l₁ ++ x :: l₂) = some l₁.length := by
  induction l₁ with
  | nil => simp [List.findIdx?_cons]
  | cons a l ih =>
    have hmem : ¬ (x = a ∨ x ∈ l) := by simpa [List.mem_cons] using h
    have ha : (a == x) = false := by
      rw [beq_eq_false_iff_ne]
      exact fun e => hmem (Or.inl e.symm)
    have ih' := ih (fun hx => hmem (Or.inr hx))
    simp [List.cons_append, List.findIdx?_cons, ha, List.findIdx?_succ, ih']

/-! ## Claim theorems: focus routing for new filters -/

/-- Claim C2: with the committed stream's item keys `` `${kind}:${index}` ``
and the focused key that of the edited slot, `calculateNextFocusForFilter`
targets the FILTER token whose ordinal index is the number of FILTER-kind
tokens strictly before the focused slot — tokens of every other kind do not
contribute — focused on its "value" part. -/
theorem calculateNextFocusForFilter_counts (pre post : List (Token × Nat)) (cur : Token × Nat)
    (h : pairKey cur ∉ pre.map pairKey) :
    calculateNextFocusForFilter ⟨(pre ++ cur :: post).map pairKey, pairKey cur⟩ =
      { itemKey := tokenStr Token.filter ++ ":" ++
          Nat.repr (pre.countP (fun p => p.1 == Token.filter)),
        part := some "value" } := by
  have hidx : jsIndexOf ((pre ++ cur :: post).map pairKey) (pairKey cur) =
      ((pre.map pairKey).length : Int) := by
    rw [jsIndexOf, List.map_append, List.map_cons, findIdx_first _ _ _ h]
  have hslice : jsSliceUpTo ((pre ++ cur :: post).map pairKey)
      ((pre.map pairKey).length : Int) = pre.map pairKey := by
    rw [jsSliceUpTo, if_neg (by omega), Int.toNat_natCast, List.map_append, List.map_cons,
      List.take_left]
  have hcount : (pre.map pairKey).countP
      (fun next => strIncludes next (tokenStr Token.filter)) =
      pre.countP (fun p => p.1 == Token.filter) := by
    rw [List.countP_map]
    refine List.countP_congr ?_
    intro p _
    obtain ⟨t, i⟩ := p
    simp [Function.comp, strIncludes_pairKey_filter]
  simp only [calculateNextFocusForFilter, countPreviousItemsOfType]
  rw [hidx, hslice, hcount]

theorem calculateNextFocusForFilter_counts_witness :
    calculateNextFocusForFilter
        ⟨([(Token.freeText, 0), (Token.filter, 0), (Token.freeText, 1), (Token.filter, 1),
            (Token.freeText, 2)] ++ (Token.freeText, 3) :: []).map pairKey,
          pairKey (Token.freeText, 3)⟩ =
      { itemKey := "filter:2", part := some "value" } := by
  have h := calculateNextFocusForFilter_counts
      [(Token.freeText, 0), (Token.filter, 0), (Token.freeText, 1), (Token.filter, 1),
        (Token.freeText, 2)] [] (Token.freeText, 3) (by decide)
  rw [h]
  decide

/-! ## Claim theorems: default value synthesis -/

/-- The value kinds that receive a `>` comparison in the synthesized default
(the switch cases of `getInitialFilterText`). -/
def comparisonValueType (fieldDefinition : Option FieldDefinition) : Bool :=
  match fieldDefinition with
  | some f =>
    match f.valueType with
    | .integer | .number | .duration | .percentage => true
    | _ => false
  | none => false

/-- Claim C6: the synthesized filter text is the key text, a colon, and the
default value, with a `>` inserted exactly for integer/number/duration/
percentage value kinds; every other kind, including a `null` field
definition from a catalog miss, gets no comparison symbol; a NUMBER kind
with default "1" gives `key:>1` and a string kind with default "foo" gives
`key:foo`. -/
theorem getInitialFilterText_spec (key : String) (fieldDefinition : Option FieldDefinition)
    (gdv : DefaultValueLookup) :
    getInitialFilterText key fieldDefinition gdv =
      getInitialFilterKeyText key fieldDefinition ++
        (if comparisonValueType fieldDefinition then ":>" else ":") ++
        gdv key fieldDefinition ∧
    getInitialFilterText key
      (some { kind := none, valueType := .number, desc := none, parameters := none })
      (fun _ _ => "1") = key ++ ":>1" ∧
    getInitialFilterText key
      (some { kind := none, valueType := .string, desc := none, parameters := none })
      (fun _ _ => "foo") = key ++ ":foo" ∧
    getInitialFilterText key none gdv = key ++ ":" ++ gdv key none := by
  have e1 : (":>" : String) ++ "1" = ":>1" := rfl
  have e2 : (":" : String) ++ "foo" = ":foo" := rfl
  refine ⟨?_, ?_, ?_, ?_⟩
  · match fieldDefinition with
    | none => simp [getInitialFilterText, comparisonValueType]
    | some f =>
      cases hv : f.valueType <;>
        simp [getInitialFilterText, comparisonValueType, hv]
  · simp [getInitialFilterText, getInitialFilterKeyText, String.append_assoc, e1]
  · simp [getInitialFilterText, getInitialFilterKeyText, String.append_assoc, e2]
  · simp [getInitialFilterText, getInitialFilterKeyText, comparisonValueType]

/-! ## Claim theorems: paste handling -/

lemma removeFirstChar_count_le (c : Char) (l : List Char) (h : l.count c ≤ 1) :
    removeFirstChar c l = l.filter (fun x => x ≠ c) := by
  induction l with
  | nil => rfl
  | cons x xs ih =>
    by_cases hx : x = c
    · subst hx
      have hcount : xs.count x = 0 := by
        simp only [List.count_cons_self] at h
        omega
      have hnot : x ∉ xs := List.count_eq_zero.mp hcount
      have hfil : xs.filter (fun y => decide (y ≠ x)) = xs := by
        refine List.filter_eq_self.mpr ?_
        intro a ha
        simp only [decide_eq_true_eq]
        exact fun e => hnot (e ▸ ha)
      simp only [removeFirstChar, if_pos rfl]
      rw [List.filter_cons_of_neg (by simp)]
      exact hfil.symm
    · have hcount : xs.count c ≤ 1 := by
        rw [List.count_cons] at h
        simp [hx] at h
        omega
      simp only [removeFirstChar, if_neg hx]
      rw [ih hcount, List.filter_cons_of_pos (by simp [hx])]

/-- Claim C4 counterexample: the paste handler's `replace('\n', '')` removes
only the first newline, so a payload with two newlines is not committed
with all newlines stripped. -/
theorem onPaste_counterexample :
    (onPaste "a\nb\nc").text ≠ pasteTextAllNewlinesStripped "a\nb\nc" := by decide

/-- Claim C4 (amended): the committed paste text is the clipboard payload
with the FIRST newline occurrence removed and surrounding whitespace
trimmed, dispatched immediately as a whole-token replacement
(`REPLACE_TOKENS_WITH_TEXT`, no focus override, no classification); for
payloads with at most one newline this agrees with stripping all newlines,
and `"level:error\n"` commits `"level:error"`. -/
theorem onPaste_spec (clipboardText : String) :
    onPaste clipboardText =
      { type := .replaceTokensWithText,
        text := jsTrim (String.mk (removeFirstChar '\n' clipboardText.data)),
        focusOverride := none } ∧
    (clipboardText.data.count '\n' ≤ 1 →
      (onPaste clipboardText).text = pasteTextAllNewlinesStripped clipboardText) ∧
    (onPaste "level:error\n").text = "level:error" := by
  refine ⟨rfl, ?_, by decide⟩
  intro h
  simp only [onPaste, pasteTextAllNewlinesStripped]
  rw [removeFirstChar_count_le '\n' clipboardText.data h]

theorem onPaste_spec_witness :
    (onPaste "level:error\n").text = pasteTextAllNewlinesStripped "level:error\n" :=
  (onPaste_spec "level:error\n").2.1 (by decide)

/-! ## Claim theorems: blur and submission commits -/

/-- Claim C8 counterexample: with committed token value "abc" and local text
"abc" (unchanged: `jsTrim "abc" = "abc"`), the custom-value blur handler
still issues a dispatch, contradicting "no commit is issued". -/
theorem onCustomValueBlurred_unchanged_dispatches :
    jsTrim "abc" = "abc" ∧ onCustomValueBlurred "abc" ≠ [] := by decide

/-- Claim C8 (amended): `onExit` dispatches nothing when the local text
equals the trimmed committed token value and otherwise dispatches the raw
local text verbatim with no focus override; the custom-value blur and
explicit-submission handlers always dispatch their raw value verbatim with
no focus override, even when it is unchanged. -/
theorem exit_blur_commit_spec (inputValue tokenValue value : String) :
    (inputValue = jsTrim tokenValue → onExit inputValue tokenValue = []) ∧
    (inputValue ≠ jsTrim tokenValue → onExit inputValue tokenValue =
      [{ type := .updateFreeText, text := inputValue, focusOverride := none }]) ∧
    onCustomValueBlurred value =
      [{ type := .updateFreeText, text := value, focusOverride := none }] ∧
    onCustomValueCommitted value =
      [{ type := .updateFreeText, text := value, focusOverride := none }] := by
  refine ⟨?_, ?_, rfl, rfl⟩
  · intro h
    simp [onExit, h]
  · intro h
    simp [onExit, h]

theorem exit_blur_commit_spec_witness :
    onExit "a" "a" = [] ∧
    onExit "b" "a" = [{ type := .updateFreeText, text := "b", focusOverride := none }] :=
  ⟨(exit_blur_commit_spec "a" "a" "x").1 (by decide),
    (exit_blur_commit_spec "b" "a" "x").2.1 (by decide)⟩

/-! ## Claim theorems: candidate ranking for the empty filter word -/

/-- Claim C9: for the empty filter word, `useSortItems` returns the
configured sections as section groupings when any are configured, and
otherwise the flat key items in catalog order; it is a pure function of its
inputs, so repeated calls agree. -/
theorem useSortItems_empty_word (env : SortEnv) :
    (env.filterKeySections = [] →
      useSortItems env "" =
        env.filterKeys.map (fun t =>
          SortItem.single (createItem env.getEscapedKey t (env.getFieldDefinition t.key)))) ∧
    (env.filterKeySections ≠ [] →
      useSortItems env "" =
        env.filterKeySections.map (fun s =>
          SortItem.group (createSection env.getEscapedKey env.lookupTag
            env.getFieldDefinition s))) := by
  constructor
  · intro h
    simp [useSortItems, h, flatItems]
  · intro h
    simp [useSortItems, h]

/-- A one-key, zero-section environment for the ranking witness. -/
def sortEnvExample : SortEnv :=
  { filterKeys := [{ key := "level", kind := none }]
    filterKeySections := []
    lookupTag := fun _ => { key := "", kind := none }
    getFieldDefinition := fun _ => none
    getEscapedKey := fun k => k
    fuzzy := none }

theorem useSortItems_empty_word_witness :
    useSortItems sortEnvExample "" =
      sortEnvExample.filterKeys.map (fun t =>
        SortItem.single (createItem sortEnvExample.getEscapedKey t
          (sortEnvExample.getFieldDefinition t.key))) :=
  (useSortItems_empty_word sortEnvExample).1 rfl

end FreeTextSlot
